import Mathlib

set_option maxHeartbeats 1000000

/-!
Verification development for the trustos-poc hash-chained ledger.

The model below is a shallow embedding of the ledger-related route handlers:
* `src/app/api/trust/dao/submit/route.ts` (the in-memory hash-chained ledger),
* `src/app/api/trust/verify/route.ts`   (the verification engine),
* the file-backed jsonl ledger implementation (`stableStringify` / `getLastEntry`).

JavaScript structured values are modelled by the inductive type `Json`
(objects keep their key insertion order, as JS objects do).  The SHA-256
hex digest provided by Node's `crypto` module is a foreign function to this
repository; it is modelled as an arbitrary parameter `H : String → String`
(the hex digest of the input), and theorems that genuinely need
collision-freeness take `Function.Injective H` as a hypothesis.
Timestamps (`new Date().toISOString()`), the derived `ledgerId` and the
randomly generated DAO vote are nondeterministic inputs, so they are taken
as parameters of the request.
-/

namespace TrustLedger

/-- A JavaScript structured value.  Objects are association lists that keep
the insertion order of keys (as JS objects do); in actual JS an object never
has duplicate keys, so theorems about objects may assume key `Nodup`. -/
inductive Json where
  | null : Json
  | bool : Bool → Json
  | num : Int → Json
  | str : String → Json
  | arr : List Json → Json
  | obj : List (String × Json) → Json

/-- JSON string escaping (quote and backslash; the strings appearing in
ledger entries contain no control characters). -/
def jsonEscapeChar (c : Char) : String :=
  if c = '"' then "\\\"" else if c = '\\' then "\\\\" else String.singleton c

/-- Encoding of a string under `JSON.stringify`: surrounding quotes plus escaping. -/
def jsonQuote (s : String) : String :=
  "\"" ++ String.join (s.data.map jsonEscapeChar) ++ "\""

mutual
/-- Model of JavaScript `JSON.stringify`: object fields are emitted in
insertion order (this is the encoding the submit route hashes at line 95 of
`dao/submit/route.ts` and the verify route recomputes at line 18 of
`verify/route.ts`). -/
def jsonStringify : Json → String
  | Json.null => "null"
  | Json.bool true => "true"
  | Json.bool false => "false"
  | Json.num n => toString n
  | Json.str s => jsonQuote s
  | Json.arr xs => "[" ++ jsonStringifyList xs ++ "]"
  | Json.obj fs => "\x7b" ++ jsonStringifyFields fs ++ "\x7d"

/-- Elements of an array, comma separated (`.join(',')`). -/
def jsonStringifyList : List Json → String
  | [] => ""
  | [x] => jsonStringify x
  | x :: y :: xs => jsonStringify x ++ "," ++ jsonStringifyList (y :: xs)

/-- Fields of an object, `"key":value`, comma separated, insertion order. -/
def jsonStringifyFields : List (String × Json) → String
  | [] => ""
  | [(k, v)] => jsonQuote k ++ ":" ++ jsonStringify v
  | (k, v) :: p :: fs =>
      jsonQuote k ++ ":" ++ jsonStringify v ++ "," ++ jsonStringifyFields (p :: fs)
end

/-- Key sorting: `Object.keys(obj).sort()` on JS strings is ascending lexicographic
comparison; here we sort the (key, encoded value) pairs by key with a stable
merge sort, which agrees with sorting the keys and then indexing, because a
JS object's keys are distinct. -/
def sortFields (l : List (String × String)) : List (String × String) :=
  l.mergeSort (fun a b => decide (a.1 ≤ b.1))

mutual
/-- Model of `stableStringify` from the file-backed ledger implementation:
primitives and arrays encode as `JSON.stringify` does, while object fields
are first sorted by key. -/
def stableStringify : Json → String
  | Json.null => "null"
  | Json.bool true => "true"
  | Json.bool false => "false"
  | Json.num n => toString n
  | Json.str s => jsonQuote s
  | Json.arr xs => "[" ++ stableStringifyList xs ++ "]"
  | Json.obj fs =>
      "\x7b" ++
        String.intercalate ("," )
          ((sortFields (stableFields fs)).map (fun p => jsonQuote p.1 ++ ":" ++ p.2)) ++
      "\x7d"

/-- Elements of an array under `stableStringify`, comma separated. -/
def stableStringifyList : List Json → String
  | [] => ""
  | [x] => stableStringify x
  | x :: y :: xs => stableStringify x ++ "," ++ stableStringifyList (y :: xs)

/-- Each object field paired with the stable encoding of its value. -/
def stableFields : List (String × Json) → List (String × String)
  | [] => []
  | (k, v) :: fs => (k, stableStringify v) :: stableFields fs
end

/-- Model of `sha256Hex` from `dao/submit/route.ts` and `verify/route.ts`:
`'0x' + crypto.createHash('sha256').update(input).digest('hex')`.
`H` models the hex digest. -/
def sha256Hex (H : String → String) (input : String) : String :=
  "0x" ++ H input

/-- The mocked DAO vote result stored in each entry. -/
structure DaoResult where
  approved : Bool
  txHash : String
  yes : Int
  no : Int
  quorum : Int
deriving DecidableEq

/-- The `LedgerEntryCore` record: the hashed payload of an entry.  `kind` is the fixed
discriminator `'trust_kernel_v1'`. -/
structure LedgerEntryCore where
  kind : String
  ledgerId : String
  height : Int
  prevHash : Option String
  address : Option String
  score : Int
  daoResult : DaoResult
  createdAt : String
deriving DecidableEq

/-- The committed entry: `LedgerEntry = LedgerEntryCore` plus `hash`. -/
structure LedgerEntry extends LedgerEntryCore where
  hash : String
deriving DecidableEq

/-- The JS object literal for a `DaoResult`, fields in source order
(lines 67–73 of `dao/submit/route.ts`). -/
def daoToJson (d : DaoResult) : Json :=
  Json.obj [("approved", Json.bool d.approved), ("txHash", Json.str d.txHash),
            ("yes", Json.num d.yes), ("no", Json.num d.no), ("quorum", Json.num d.quorum)]

/-- Conversion of a nullable string field (`null` or string). -/
def optStrJson : Option String → Json
  | none => Json.null
  | some s => Json.str s

/-- The JS object literal for a `LedgerEntryCore`, fields in the insertion
order of the source (lines 84–93 of `dao/submit/route.ts`). -/
def coreToJson (c : LedgerEntryCore) : Json :=
  Json.obj [("kind", Json.str c.kind), ("ledgerId", Json.str c.ledgerId),
            ("height", Json.num c.height), ("prevHash", optStrJson c.prevHash),
            ("address", optStrJson c.address), ("score", Json.num c.score),
            ("daoResult", daoToJson c.daoResult), ("createdAt", Json.str c.createdAt)]

/-- Spread of core plus hash: the committed entry's JS object, core fields first
(in their insertion order) and `hash` last. -/
def entryToJson (e : LedgerEntry) : Json :=
  match coreToJson e.toLedgerEntryCore with
  | Json.obj fs => Json.obj (fs ++ [("hash", Json.str e.hash)])
  | j => j

/-- The deterministic inputs of one append call: the request body fields
plus the nondeterministic quantities (timestamp-derived `ledgerId`,
`createdAt`, and the randomly mocked DAO vote) taken as oracle inputs. -/
structure SubmitReq where
  address : Option String
  score : Int
  daoResult : DaoResult
  ledgerId : String
  createdAt : String
deriving DecidableEq

/-- The ledger-chain section of the submit route's `POST`
(lines 76–96 of `dao/submit/route.ts`): read the in-memory tail, build the
next core with `height = last.height + 1` (or 1) and
`prevHash = last.hash` (or `null`), hash the `JSON.stringify` of the core,
and form the committed entry. -/
def appendEntry (H : String → String) (store : List LedgerEntry) (r : SubmitReq) :
    LedgerEntry :=
  let last := store.getLast?
  let height : Int := match last with | some l => l.height + 1 | none => 1
  let prevHash : Option String := match last with | some l => some l.hash | none => none
  let core : LedgerEntryCore :=
    { kind := "trust_kernel_v1", ledgerId := r.ledgerId, height := height,
      prevHash := prevHash, address := r.address, score := r.score,
      daoResult := r.daoResult, createdAt := r.createdAt }
  { toLedgerEntryCore := core, hash := sha256Hex H (jsonStringify (coreToJson core)) }

/-- A sequence of append calls starting from the empty in-memory ledger
(`globalThis.__TRUST_LEDGER__ ??= []`); each call pushes the freshly built
entry onto the store. -/
def runAppends (H : String → String) (rs : List SubmitReq) : List LedgerEntry :=
  rs.foldl (fun store r => store ++ [appendEntry H store r]) []

/-- Model of `store.slice(-n)` on a JS array: the last `n` elements (the whole array
when it is shorter than `n`). -/
def sliceLast (l : List α) (n : Nat) : List α := l.drop (l.length - n)

/-- Model of `appendToFile` (lines 45–53 of `dao/submit/route.ts`): the file
is a list of jsonl lines; the try/catch swallows any write failure and
reports it as `false`.  `writeOk` is the environment oracle for whether the
filesystem write succeeds. -/
def appendToFile (file : List String) (line : String) (writeOk : Bool) :
    List String × Bool :=
  if writeOk then (file ++ [line], true) else (file, false)

/-- The JSON body returned by the submit route's `POST`. -/
structure SubmitResponse where
  ok : Bool
  entry : LedgerEntry
  timeline : List LedgerEntry
  storageMemory : Bool
  storageFile : Bool
deriving DecidableEq

/-- The submit route's `POST` (lines 76–111 of `dao/submit/route.ts`):
commit the entry to the in-memory store, then best-effort append it to the
file, then answer with the entry, the last-20 timeline and the storage
flags.  Returns (response, new in-memory store, new file). -/
def submitPost (H : String → String) (store : List LedgerEntry) (file : List String)
    (r : SubmitReq) (writeOk : Bool) :
    SubmitResponse × List LedgerEntry × List String :=
  let entry := appendEntry H store r
  let store2 := store ++ [entry]
  let fw := appendToFile file (jsonStringify (entryToJson entry)) writeOk
  let timeline := sliceLast store2 20
  ({ ok := true, entry := entry, timeline := timeline,
     storageMemory := true, storageFile := fw.2 }, store2, fw.1)

/-- The JSON body returned by the verify route's `POST` (success case). -/
structure VerifyResult where
  valid : Bool
  hashOk : Bool
  chainOk : Bool
  reason : Option String
deriving DecidableEq

/-- The chain-linkage block of the verify route (lines 21–31 of
`verify/route.ts`): `chainOk` starts `true` and is lowered to `false`
(with its reason) only when a window was supplied (`timeline &&
Array.isArray(timeline)` — note an empty JS array is truthy), the
candidate's `prevHash` is truthy (`null` and `''` are falsy), and no
window element's `hash` equals it.  Heights are never consulted. -/
def verifyChain (timeline : Option (List LedgerEntry)) (prevHash : Option String) :
    Bool × Option String :=
  match timeline, prevHash with
  | some t, some p =>
      if p = "" then (true, none)
      else if (t.find? (fun x => x.hash == p)).isSome then (true, none)
      else (false, some ("prevHash not found in timeline"))
  | _, _ => (true, none)

/-- The hash the verify route recomputes: `sha256Hex(JSON.stringify(core))`
where `core` is the candidate minus its `hash` field (JS rest-destructuring
keeps the remaining fields in their original insertion order). -/
def recomputedHash (H : String → String) (e : LedgerEntry) : String :=
  sha256Hex H (jsonStringify (coreToJson e.toLedgerEntryCore))

/-- The hash check `hashOk = recomputed === hash`. -/
def hashOkB (H : String → String) (e : LedgerEntry) : Bool :=
  recomputedHash H e == e.hash

/-- The verify route's `POST` (lines 8–45 of `verify/route.ts`).
`none` models the early 400 response for a missing/falsy `hash`.
The candidate is an entry shaped like the ones the submit route commits,
so the rest-destructuring recovers `toLedgerEntryCore` with the same field
order that was hashed at append time.  `timeline` is `some`/`none`
according to whether the request supplied a window. -/
def verifyPost (H : String → String) (entry : LedgerEntry)
    (timeline : Option (List LedgerEntry)) : Option VerifyResult :=
  if entry.hash = "" then none
  else
    let hashOk := hashOkB H entry
    let chain := verifyChain timeline entry.prevHash
    let valid := hashOk && chain.1
    some { valid := valid, hashOk := hashOk, chainOk := chain.1,
           reason := if valid then none
                     else if hashOk then chain.2 else some ("Hash mismatch") }

namespace Part002

/-- The record body of the file-backed jsonl ledger implementation:
schema tag, timestamp, nullable address, the score and DAO payloads
treated as opaque structured values, and the predecessor hash
(the string sentinel `'GENESIS'` when the file holds no prior record). -/
structure P2Core where
  schema : String
  ts : String
  address : Option String
  scorePayload : Json
  daoPayload : Json
  prevHash : String

/-- The stored record: the body spread together with its `hash`. -/
structure P2Entry extends P2Core where
  hash : String

/-- The JS object literal for a record body, fields in source insertion
order. -/
def p2CoreToJson (c : P2Core) : Json :=
  Json.obj [("schema", Json.str c.schema), ("ts", Json.str c.ts),
            ("address", optStrJson c.address), ("scorePayload", c.scorePayload),
            ("daoPayload", c.daoPayload), ("prevHash", Json.str c.prevHash)]

/-- This implementation's `sha256Hex`: the bare hex digest (no `'0x'`
prefix), modelled by the digest parameter `H` itself. -/
def sha256Hex (H : String → String) (input : String) : String := H input

/-- The jsonl file at the record level: each line is `some` record when it
parses, `none` when `JSON.parse` fails on it (a corrupt line).  Writing
`JSON.stringify(stored)` and parsing the line back is the identity on these
records, so `appendFileSync` is modelled as appending `some stored`. -/
abbrev P2File := List (Option P2Entry)

/-- Model of `getLastEntry` (lines 26–37 of the file-backed implementation): an
empty file yields `null`; otherwise the last line is parsed, and a parse
failure (corrupt trailing record) yields `null`.  This is the `loadLast`
operation of the spec. -/
def getLastEntry (file : P2File) : Option P2Entry :=
  match file.getLast? with
  | none => none
  | some none => none
  | some (some e) => some e

/-- One request to the file-backed ledger (timestamp as oracle input). -/
structure P2Req where
  address : Option String
  scorePayload : Json
  daoPayload : Json
  ts : String

/-- The file-backed implementation's `POST`: read the last parsed record
for `prevHash` (or `'GENESIS'`), build the body, hash its
`stableStringify`, and append the stored record to the file.  Returns
(stored record, new file). -/
def p2Post (H : String → String) (file : P2File) (r : P2Req) : P2Entry × P2File :=
  let last := getLastEntry file
  let prevHash : String := match last with | some l => l.hash | none => "GENESIS"
  let core : P2Core :=
    { schema := "trustos-ledger-v1", ts := r.ts, address := r.address,
      scorePayload := r.scorePayload, daoPayload := r.daoPayload, prevHash := prevHash }
  let stored : P2Entry :=
    { toP2Core := core, hash := sha256Hex H (stableStringify (p2CoreToJson core)) }
  (stored, file ++ [some stored])

end Part002

/-! ### Sample concrete values used by witnesses and counterexamples -/

/-- A constant digest oracle (hash internals are irrelevant to most
claims, and a constant keeps concrete evaluation cheap). -/
def HZ : String → String := fun _ => "z"

/-- The identity digest oracle: an injective `H` for tamper-detection
witnesses. -/
def Hid : String → String := fun s => s

/-- A sample mocked DAO vote. -/
def sampleDao : DaoResult :=
  { approved := true, txHash := "0xfeed", yes := 70, no := 30, quorum := 60 }

/-- Sample append requests. -/
def sampleReq1 : SubmitReq :=
  { address := some ("0xabc"), score := 75, daoResult := sampleDao,
    ledgerId := "ledger_1", createdAt := "2025-01-01T00:00:00.000Z" }

/-- A second sample request. -/
def sampleReq2 : SubmitReq :=
  { address := some ("0xabc"), score := 60, daoResult := sampleDao,
    ledgerId := "ledger_2", createdAt := "2025-01-01T00:00:01.000Z" }

/-- A third sample request. -/
def sampleReq3 : SubmitReq :=
  { address := none, score := 50, daoResult := sampleDao,
    ledgerId := "ledger_3", createdAt := "2025-01-01T00:00:02.000Z" }

/-- Build a candidate ledger entry with the given height, prevHash and
hash (other fields fixed). -/
def mkEntry (ht : Int) (ph : Option String) (hs : String) : LedgerEntry :=
  { kind := "trust_kernel_v1", ledgerId := "ledger_x", height := ht,
    prevHash := ph, address := none, score := 0, daoResult := sampleDao,
    createdAt := "2025-01-01T00:00:00.000Z", hash := hs }

/-! ### Helper lemmas -/

/-- When the candidate's `prevHash` is `null`, the chain block is skipped
whatever the window is. -/
theorem verifyChain_none (tl : Option (List LedgerEntry)) :
    verifyChain tl none = (true, none) := by
  cases tl <;> rfl

/-- When no window is supplied, the chain block is skipped whatever the
candidate's `prevHash` is. -/
theorem verifyChain_noWindow (p : Option String) :
    verifyChain none p = (true, none) := by
  cases p <;> rfl

/-- Reduction of the chain block when both a window and a `prevHash` are
present. -/
theorem verifyChain_some_some (t : List LedgerEntry) (p : String) :
    verifyChain (some t) (some p) =
      if p = "" then (true, none)
      else if (t.find? (fun x => x.hash == p)).isSome then (true, none)
      else (false, some ("prevHash not found in timeline")) := rfl

/-- Left-cancellation of string concatenation. -/
theorem string_append_cancel_left {s a b : String} (h : s ++ a = s ++ b) : a = b := by
  have hd := congrArg String.data h
  simp only [String.data_append] at hd
  have h2 := List.append_cancel_left hd
  cases a; cases b; simp only at h2; rw [h2]

/-- A `'0x'`-prefixed digest is never the empty string. -/
theorem sha256Hex_ne_empty (H : String → String) (s : String) :
    sha256Hex H s ≠ "" := by
  intro h
  have hl := congrArg String.length h
  simp only [sha256Hex, String.length_append] at hl
  have h2 : ("0x" : String).length = 2 := rfl
  have h0 : ("" : String).length = 0 := rfl
  omega

/-- Two `'0x'`-prefixed digests agree only when the digests agree. -/
theorem sha256Hex_inj_of_inj (H : String → String) (hInj : Function.Injective H)
    {a b : String} (h : sha256Hex H a = sha256Hex H b) : a = b :=
  hInj (string_append_cancel_left h)

/-- Unfolding of `verifyPost` when the candidate's `hash` field is a
non-empty string. -/
theorem verifyPost_of_hash_ne (H : String → String) (e : LedgerEntry)
    (tl : Option (List LedgerEntry)) (h : e.hash ≠ "") :
    verifyPost H e tl =
      some { valid := hashOkB H e && (verifyChain tl e.prevHash).1,
             hashOk := hashOkB H e,
             chainOk := (verifyChain tl e.prevHash).1,
             reason := if hashOkB H e && (verifyChain tl e.prevHash).1 then none
                       else if hashOkB H e then (verifyChain tl e.prevHash).2
                       else some ("Hash mismatch") } := by
  rw [verifyPost, if_neg h]

/-! ### Claims about the verification engine -/

/-- Claim C10.  For every candidate whose `prevHash` is `null`/absent, the
verify route answers `chainOk = true` regardless of the candidate's height
and of the contents of any supplied window: the chain check is skipped
entirely, so a non-genesis candidate carrying a `null` `prevHash` is never
reported as a chain-linkage failure. -/
theorem verify_null_prevHash_chainOk (H : String → String) (e : LedgerEntry)
    (tl : Option (List LedgerEntry)) (res : VerifyResult)
    (hprev : e.prevHash = none) (hres : verifyPost H e tl = some res) :
    res.chainOk = true := by
  by_cases h : e.hash = ""
  · rw [verifyPost, if_pos h] at hres
    exact absurd hres (by simp)
  · rw [verifyPost_of_hash_ne H e tl h] at hres
    rw [← Option.some.inj hres]
    simp [hprev, verifyChain_none]

/-- Witness for C10: a height-5 candidate with `prevHash = null` and a
window that does not contain its predecessor still gets `chainOk = true`. -/
theorem verify_null_prevHash_chainOk_witness :
    (mkEntry 5 none ("0xz")).prevHash = none ∧
    verifyPost HZ (mkEntry 5 none ("0xz")) (some [mkEntry 1 none ("0xq")]) =
      some { valid := true, hashOk := true, chainOk := true, reason := none } ∧
    ({ valid := true, hashOk := true, chainOk := true, reason := none } :
      VerifyResult).chainOk = true :=
  ⟨rfl, by decide,
   verify_null_prevHash_chainOk HZ (mkEntry 5 none ("0xz"))
     (some [mkEntry 1 none ("0xq")])
     { valid := true, hashOk := true, chainOk := true, reason := none }
     rfl (by decide)⟩

/-- Counterexample to claim C3.  The claim says `chainOk` requires the matching
window entry to sit at `candidate.height - 1` (and that a height-1
candidate's `chainOk` is decided by its `prevHash` alone).  The code never
consults heights: a height-2 candidate whose `prevHash` matches a window
entry of height 7 still gets `chainOk = true`, where the claim demands
`chainOk = false`. -/
theorem verify_ignores_height_cex :
    (mkEntry 2 (some ("0xp")) ("0xz")).height = 2 ∧
    (mkEntry 7 none ("0xp")).hash = "0xp" ∧
    (mkEntry 7 none ("0xp")).height ≠ (mkEntry 2 (some ("0xp")) ("0xz")).height - 1 ∧
    (verifyPost HZ (mkEntry 2 (some ("0xp")) ("0xz"))
        (some [mkEntry 7 none ("0xp")])).map VerifyResult.chainOk = some true := by
  decide

/-- Amended claim C3.  What the code actually does: when a window is
supplied, `chainOk` is `false` exactly when the candidate's `prevHash` is a
truthy string that no window entry's `hash` equals; the found entry's
height is never compared to `candidate.height - 1`, and `height == 1` is
not special-cased (a height-1 candidate is treated like any other). -/
theorem verify_chainOk_characterization (H : String → String) (e : LedgerEntry)
    (t : List LedgerEntry) (res : VerifyResult)
    (hres : verifyPost H e (some t) = some res) :
    res.chainOk = false ↔ ∃ p, e.prevHash = some p ∧ p ≠ "" ∧ ∀ x ∈ t, x.hash ≠ p := by
  by_cases h : e.hash = ""
  · rw [verifyPost, if_pos h] at hres
    exact absurd hres (by simp)
  · rw [verifyPost_of_hash_ne H e (some t) h] at hres
    rw [← Option.some.inj hres]
    cases hp : e.prevHash with
    | none => simp [verifyChain_none]
    | some p =>
      rw [verifyChain_some_some]
      by_cases hpe : p = ""
      · subst hpe
        simp
      · rw [if_neg hpe]
        by_cases hfind : (t.find? (fun x => x.hash == p)).isSome
        · rw [if_pos hfind]
          rw [List.find?_isSome] at hfind
          obtain ⟨x, hx, hxp⟩ := hfind
          simp only [beq_iff_eq] at hxp
          simp only [Bool.true_eq_false, false_iff, not_exists]
          rintro q ⟨hq1, hq2, hq3⟩
          exact hq3 x hx (hxp.trans (Option.some.inj hq1))
        · rw [if_neg hfind]
          simp only [eq_self_iff_true, true_iff]
          refine ⟨p, rfl, hpe, fun x hx hxp => hfind ?_⟩
          exact List.find?_isSome.mpr ⟨x, hx, by simp [hxp]⟩

/-- Witness for the amended C3: a candidate whose `prevHash` matches no
entry of the supplied window gets `chainOk = false`, and the
characterization instantiates to it. -/
theorem verify_chainOk_characterization_witness :
    verifyPost HZ (mkEntry 2 (some ("0xp")) ("0xz")) (some [mkEntry 1 none ("0xq")]) =
      some { valid := false, hashOk := true, chainOk := false,
             reason := some ("prevHash not found in timeline") } ∧
    (({ valid := false, hashOk := true, chainOk := false,
        reason := some ("prevHash not found in timeline") } : VerifyResult).chainOk = false ↔
      ∃ p, (mkEntry 2 (some ("0xp")) ("0xz")).prevHash = some p ∧ p ≠ "" ∧
        ∀ x ∈ [mkEntry 1 none ("0xq")], x.hash ≠ p) :=
  ⟨by decide,
   verify_chainOk_characterization HZ (mkEntry 2 (some ("0xp")) ("0xz"))
     [mkEntry 1 none ("0xq")]
     { valid := false, hashOk := true, chainOk := false,
       reason := some ("prevHash not found in timeline") }
     (by decide)⟩

/-- Counterexample to claim C6.  The claim says that when the window is *not
supplied* and the candidate's `prevHash` is present, the result must have
`chainOk = false` and `valid = false`.  The code only enters the chain
block when a window was supplied, so with no window a candidate with a
present `prevHash` (and a correct hash) gets `chainOk = true` and
`valid = true`. -/
theorem verify_no_window_chainOk_cex :
    (mkEntry 2 (some ("0xdead")) ("0xz")).prevHash = some ("0xdead") ∧
    (verifyPost HZ (mkEntry 2 (some ("0xdead")) ("0xz")) none).map VerifyResult.chainOk =
      some true ∧
    (verifyPost HZ (mkEntry 2 (some ("0xdead")) ("0xz")) none).map VerifyResult.valid =
      some true := by
  decide

/-- Amended claim C6.  When the window is absent the chain check is skipped
and `chainOk` defaults to `true` regardless of `prevHash`; only when a
window is supplied — including the empty window — and `prevHash` is a
truthy string absent from it does the route answer `chainOk = false` and
`valid = false`, with reason `'prevHash not found in timeline'` (unless the
hash check already failed, which takes priority with `'Hash mismatch'`). -/
theorem verify_window_missing_vs_empty (H : String → String) (e : LedgerEntry)
    (res1 res2 : VerifyResult) (p : String)
    (hp : e.prevHash = some p) (hpe : p ≠ "")
    (h1 : verifyPost H e none = some res1)
    (h2 : verifyPost H e (some []) = some res2) :
    res1.chainOk = true ∧
    res2.chainOk = false ∧ res2.valid = false ∧
    res2.reason = (if res2.hashOk then some ("prevHash not found in timeline")
                   else some ("Hash mismatch")) := by
  by_cases h : e.hash = ""
  · rw [verifyPost, if_pos h] at h1
    exact absurd h1 (by simp)
  · rw [verifyPost_of_hash_ne H e none h] at h1
    rw [verifyPost_of_hash_ne H e (some []) h] at h2
    rw [← Option.some.inj h1, ← Option.some.inj h2]
    have hchain : verifyChain (some []) e.prevHash =
        (false, some ("prevHash not found in timeline")) := by
      rw [hp, verifyChain, if_neg hpe]
      simp
    refine ⟨by simp [verifyChain_noWindow], by simp [hchain], by simp [hchain], ?_⟩
    cases hok : hashOkB H e <;> simp [hchain, hok]

/-- Witness for the amended C6: the same candidate gets `chainOk = true`
with no window but `chainOk = false`, `valid = false` and the
`'prevHash not found in timeline'` reason with the empty window. -/
theorem verify_window_missing_vs_empty_witness :
    (mkEntry 2 (some ("0xdead")) ("0xz")).prevHash = some ("0xdead") ∧
    verifyPost HZ (mkEntry 2 (some ("0xdead")) ("0xz")) none =
      some { valid := true, hashOk := true, chainOk := true, reason := none } ∧
    verifyPost HZ (mkEntry 2 (some ("0xdead")) ("0xz")) (some []) =
      some { valid := false, hashOk := true, chainOk := false,
             reason := some ("prevHash not found in timeline") } ∧
    ({ valid := true, hashOk := true, chainOk := true, reason := none } :
        VerifyResult).chainOk = true ∧
    ({ valid := false, hashOk := true, chainOk := false,
       reason := some ("prevHash not found in timeline") } : VerifyResult).valid = false :=
  ⟨rfl, by decide, by decide,
   (verify_window_missing_vs_empty HZ (mkEntry 2 (some ("0xdead")) ("0xz"))
      { valid := true, hashOk := true, chainOk := true, reason := none }
      { valid := false, hashOk := true, chainOk := false,
        reason := some ("prevHash not found in timeline") }
      ("0xdead") rfl (by decide) (by decide) (by decide)).1,
   (verify_window_missing_vs_empty HZ (mkEntry 2 (some ("0xdead")) ("0xz"))
      { valid := true, hashOk := true, chainOk := true, reason := none }
      { valid := false, hashOk := true, chainOk := false,
        reason := some ("prevHash not found in timeline") }
      ("0xdead") rfl (by decide) (by decide) (by decide)).2.2.1⟩

/-- Re-attach a (possibly stale) `hash` field to a core: the JS object
`\x7b ...core, hash \x7d`. -/
def withHash (c : LedgerEntryCore) (h : String) : LedgerEntry :=
  { toLedgerEntryCore := c, hash := h }

/-- The committed entry's stored `hash` is precisely the digest of the
canonical (`JSON.stringify`) encoding of its core. -/
theorem appendEntry_hash (H : String → String) (store : List LedgerEntry) (r : SubmitReq) :
    (appendEntry H store r).hash =
      sha256Hex H (jsonStringify (coreToJson (appendEntry H store r).toLedgerEntryCore)) := rfl

/-- A committed entry's `hash` field is never the empty string. -/
theorem appendEntry_hash_ne_empty (H : String → String) (store : List LedgerEntry)
    (r : SubmitReq) : (appendEntry H store r).hash ≠ "" := by
  rw [appendEntry_hash]
  exact sha256Hex_ne_empty _ _

/-- Claim C5.  Tamper detection: take an entry committed by append and any
replacement core whose canonical encoding differs (any change to a body
field that alters the encoding); submitting it with the original `hash`
unchanged yields `hashOk = false` and `valid = false`, with reason
`'Hash mismatch'` — and in general a failed hash check's reason takes
priority over any chain-linkage failure, while `reason` is `null` whenever
`valid` is `true`.  Collision-freeness of SHA-256 is modelled by the
injectivity hypothesis on the digest `H`. -/
theorem verify_tamper_detection (H : String → String) (hInj : Function.Injective H)
    (store : List LedgerEntry) (r : SubmitReq) (core2 : LedgerEntryCore)
    (hne : jsonStringify (coreToJson core2) ≠
           jsonStringify (coreToJson (appendEntry H store r).toLedgerEntryCore))
    (tl : Option (List LedgerEntry)) :
    ((verifyPost H (withHash core2 (appendEntry H store r).hash) tl).map
        VerifyResult.hashOk = some false ∧
     (verifyPost H (withHash core2 (appendEntry H store r).hash) tl).map
        VerifyResult.valid = some false ∧
     (verifyPost H (withHash core2 (appendEntry H store r).hash) tl).map
        VerifyResult.reason = some (some ("Hash mismatch"))) ∧
    (∀ (e : LedgerEntry) (tl2 : Option (List LedgerEntry)) (res : VerifyResult),
        verifyPost H e tl2 = some res →
        (res.hashOk = false → res.reason = some ("Hash mismatch")) ∧
        (res.valid = true → res.reason = none)) := by
  constructor
  · have hne0 : (withHash core2 (appendEntry H store r).hash).hash ≠ "" :=
      appendEntry_hash_ne_empty H store r
    have hok : hashOkB H (withHash core2 (appendEntry H store r).hash) = false := by
      apply beq_eq_false_iff_ne.mpr
      show sha256Hex H (jsonStringify (coreToJson core2)) ≠ (appendEntry H store r).hash
      rw [appendEntry_hash]
      intro heq
      exact hne (sha256Hex_inj_of_inj H hInj heq)
    rw [verifyPost_of_hash_ne H _ tl hne0]
    simp [hok]
  · intro e tl2 res hres
    by_cases h : e.hash = ""
    · rw [verifyPost, if_pos h] at hres
      exact absurd hres (by simp)
    · rw [verifyPost_of_hash_ne H e tl2 h] at hres
      rw [← Option.some.inj hres]
      cases hok : hashOkB H e <;>
        cases hc : (verifyChain tl2 e.prevHash).1 <;> simp [hok, hc]

/-- Witness for C5: committing a genesis entry with the identity digest and
flipping its `score` from 75 to 99 changes the canonical encoding, and the
theorem then reports the mismatch. -/
theorem verify_tamper_detection_witness :
    Function.Injective Hid ∧
    jsonStringify (coreToJson (mkEntry 1 none ("0xz")).toLedgerEntryCore) ≠
      jsonStringify (coreToJson (appendEntry Hid [] sampleReq1).toLedgerEntryCore) ∧
    ((verifyPost Hid (withHash (mkEntry 1 none ("0xz")).toLedgerEntryCore
          (appendEntry Hid [] sampleReq1).hash) (some [])).map
        VerifyResult.hashOk = some false ∧
     (verifyPost Hid (withHash (mkEntry 1 none ("0xz")).toLedgerEntryCore
          (appendEntry Hid [] sampleReq1).hash) (some [])).map
        VerifyResult.valid = some false ∧
     (verifyPost Hid (withHash (mkEntry 1 none ("0xz")).toLedgerEntryCore
          (appendEntry Hid [] sampleReq1).hash) (some [])).map
        VerifyResult.reason = some (some ("Hash mismatch"))) :=
  ⟨fun _ _ h => h, by decide,
   (verify_tamper_detection Hid (fun _ _ h => h) [] sampleReq1
      (mkEntry 1 none ("0xz")).toLedgerEntryCore (by decide) (some [])).1⟩

/-- Claim C4.  Every entry committed by append on a non-empty ledger verifies
as `valid = true` when the supplied window contains its predecessor: the
recomputed hash matches the stored one and the chain check finds the
predecessor's hash. -/
theorem verify_committed_entry_valid (H : String → String) (store : List LedgerEntry)
    (r : SubmitReq) (w : List LedgerEntry) (pred : LedgerEntry)
    (hlast : store.getLast? = some pred) (hw : pred ∈ w) :
    verifyPost H (appendEntry H store r) (some w) =
      some { valid := true, hashOk := true, chainOk := true, reason := none } := by
  have hok : hashOkB H (appendEntry H store r) = true := beq_iff_eq.mpr rfl
  have hprev : (appendEntry H store r).prevHash = some pred.hash := by
    simp [appendEntry, hlast]
  have hchain : verifyChain (some w) ((appendEntry H store r).prevHash) = (true, none) := by
    rw [hprev, verifyChain_some_some]
    by_cases hpe : pred.hash = ""
    · rw [if_pos hpe]
    · rw [if_neg hpe, if_pos (List.find?_isSome.mpr ⟨pred, hw, by simp⟩)]
  rw [verifyPost_of_hash_ne H _ (some w) (appendEntry_hash_ne_empty H store r)]
  simp [hok, hchain]

/-- Witness for C4: append onto a one-entry ledger and verify against the
window containing that predecessor. -/
theorem verify_committed_entry_valid_witness :
    [mkEntry 1 none ("0xq")].getLast? = some (mkEntry 1 none ("0xq")) ∧
    mkEntry 1 none ("0xq") ∈ [mkEntry 1 none ("0xq")] ∧
    verifyPost HZ (appendEntry HZ [mkEntry 1 none ("0xq")] sampleReq1)
        (some [mkEntry 1 none ("0xq")]) =
      some { valid := true, hashOk := true, chainOk := true, reason := none } :=
  ⟨rfl, by decide,
   verify_committed_entry_valid HZ [mkEntry 1 none ("0xq")] sampleReq1
     [mkEntry 1 none ("0xq")] (mkEntry 1 none ("0xq")) rfl (by decide)⟩

/-! ### Claims about the append path -/

/-- Claim C7.  A failing durable file write never rolls back or fails the
in-memory commit: whatever the write outcome `writeOk`, the new store is
the old store with the entry appended, the committed entry is returned to
the caller, and the failure surfaces only as the boolean `storage.file`
flag of the response — the store, the returned entry and the timeline are
identical under a failing and a succeeding write. -/
theorem append_commit_independent_of_file_write (H : String → String)
    (store : List LedgerEntry) (file : List String) (r : SubmitReq) (writeOk : Bool) :
    (submitPost H store file r writeOk).2.1 = store ++ [appendEntry H store r] ∧
    (submitPost H store file r writeOk).1.entry = appendEntry H store r ∧
    (submitPost H store file r writeOk).1.ok = true ∧
    (submitPost H store file r writeOk).1.storageFile = writeOk ∧
    (submitPost H store file r writeOk).1.entry ∈ (submitPost H store file r writeOk).2.1 ∧
    (submitPost H store file r false).2.1 = (submitPost H store file r true).2.1 ∧
    (submitPost H store file r false).1.entry = (submitPost H store file r true).1.entry ∧
    (submitPost H store file r false).1.timeline =
      (submitPost H store file r true).1.timeline := by
  refine ⟨rfl, rfl, rfl, ?_, ?_, rfl, rfl, rfl⟩
  · cases writeOk <;> rfl
  · exact List.mem_append_right store (List.mem_singleton.mpr rfl)

/-- Claim C9.  The timeline returned by append is the last `min(N, 20)`
committed entries of the resulting `N`-entry ledger, oldest first (it is a
suffix of the store, which itself is the old store plus the new entry — no
committed entry is mutated or removed), and its final element is the newly
committed entry. -/
theorem append_timeline_spec (H : String → String) (store : List LedgerEntry)
    (file : List String) (r : SubmitReq) (writeOk : Bool) :
    (submitPost H store file r writeOk).2.1 = store ++ [appendEntry H store r] ∧
    List.IsSuffix (submitPost H store file r writeOk).1.timeline
      (submitPost H store file r writeOk).2.1 ∧
    (submitPost H store file r writeOk).1.timeline.length =
      min (submitPost H store file r writeOk).2.1.length 20 ∧
    (submitPost H store file r writeOk).1.timeline.getLast? =
      some ((submitPost H store file r writeOk).1.entry) := by
  refine ⟨rfl, ?_, ?_, ?_⟩
  · exact List.drop_suffix _ _
  · show (sliceLast (store ++ [appendEntry H store r]) 20).length =
      min (store ++ [appendEntry H store r]).length 20
    rw [sliceLast, List.length_drop]
    omega
  · show (sliceLast (store ++ [appendEntry H store r]) 20).getLast? =
      some (appendEntry H store r)
    have h20 : (store ++ [appendEntry H store r]).length - 20 ≤ store.length := by
      simp
    rw [sliceLast, List.drop_append_of_le_length h20, List.getLast?_concat]

/-- The chain shape of a ledger state: gapless heights `1..N`, genesis
`prevHash` null, and each later entry's `prevHash` equal to its
predecessor's `hash`. -/
def chainInv (s : List LedgerEntry) : Prop :=
  (∀ i (h : i < s.length), s[i].height = (i : Int) + 1) ∧
  (∀ h : 0 < s.length, s[0].prevHash = none) ∧
  (∀ i (h : i + 1 < s.length), s[i + 1].prevHash = some (s[i].hash))

/-- One append preserves the chain shape. -/
theorem chainInv_append (H : String → String) (s : List LedgerEntry) (r : SubmitReq)
    (hs : chainInv s) : chainInv (s ++ [appendEntry H s r]) := by
  obtain ⟨h1, h2, h3⟩ := hs
  have hheight : (appendEntry H s r).height = (s.length : Int) + 1 := by
    cases hl : s.getLast? with
    | none =>
      have hs0 : s = [] := by simpa using hl
      subst hs0
      show (1 : Int) = _
      simp
    | some pred =>
      have hp : (appendEntry H s r).height = pred.height + 1 := by simp [appendEntry, hl]
      rw [List.getLast?_eq_getElem?, List.getElem?_eq_some] at hl
      obtain ⟨hlt, hpred⟩ := hl
      have hh := h1 (s.length - 1) hlt
      rw [hpred] at hh
      rw [hp, hh]
      have hpos : 1 ≤ s.length := by omega
      omega
  refine ⟨?_, ?_, ?_⟩
  · intro i h
    rcases Nat.lt_or_ge i s.length with hi | hi
    · rw [List.getElem_append_left hi]
      exact h1 i hi
    · have hieq : i = s.length := by
        simp only [List.length_append, List.length_singleton] at h
        omega
      subst hieq
      rw [List.getElem_concat_length s _ _ rfl]
      exact hheight
  · intro h
    cases s with
    | nil => rfl
    | cons a as =>
      rw [List.getElem_append_left (by simp)]
      exact h2 (by simp)
  · intro i h
    have hlen : i + 1 < s.length + 1 := by
      simp only [List.length_append, List.length_singleton] at h
      omega
    rcases Nat.lt_or_ge (i + 1) s.length with hi | hi
    · rw [List.getElem_append_left hi, List.getElem_append_left (Nat.lt_of_succ_lt hi)]
      exact h3 i hi
    · have hieq : i + 1 = s.length := by omega
      have hi2 : i < s.length := by omega
      rw [List.getElem_concat_length s _ _ hieq, List.getElem_append_left hi2]
      have hlast : s.getLast? = some (s.get ⟨i, hi2⟩) := by
        rw [List.getLast?_eq_getElem?]
        have hsub : s.length - 1 = i := by omega
        rw [hsub, List.getElem?_eq_getElem hi2]
        rfl
      simp [appendEntry, hlast]

/-- Every state reached by folding appends over an initial state with the
chain shape keeps the chain shape. -/
theorem chainInv_foldl (H : String → String) (rs : List SubmitReq) :
    ∀ s, chainInv s →
      chainInv (rs.foldl (fun store r => store ++ [appendEntry H store r]) s) := by
  induction rs with
  | nil => intro s hs; exact hs
  | cons r rs ih => intro s hs; exact ih _ (chainInv_append H s r hs)

/-- Claim C1.  For every sequence of append calls starting from the empty
in-memory ledger, heights form the gapless sequence `1..N` (entry at index
`i` has height `i + 1`), the first entry's `prevHash` is the
no-predecessor sentinel `null`, and every later entry's `prevHash` equals
the hash of the entry before it. -/
theorem submit_chain_invariant (H : String → String) (rs : List SubmitReq) :
    (∀ i (h : i < (runAppends H rs).length), (runAppends H rs)[i].height = (i : Int) + 1) ∧
    (∀ h : 0 < (runAppends H rs).length, (runAppends H rs)[0].prevHash = none) ∧
    (∀ i (h : i + 1 < (runAppends H rs).length),
        (runAppends H rs)[i + 1].prevHash = some ((runAppends H rs)[i].hash)) := by
  have hnil : chainInv ([] : List LedgerEntry) :=
    ⟨fun i h => absurd h (by simp), fun h => absurd h (by simp),
     fun i h => absurd h (by simp)⟩
  exact chainInv_foldl H rs [] hnil

/-- Witness for C1: after two appends the second entry has height 2 and its
`prevHash` is the first entry's hash, and the first entry's `prevHash` is
`null`. -/
theorem submit_chain_invariant_witness :
    ((runAppends HZ [sampleReq1, sampleReq2]).get ⟨1, by decide⟩).height = (1 : Int) + 1 ∧
    ((runAppends HZ [sampleReq1, sampleReq2]).get ⟨0, by decide⟩).prevHash = none ∧
    ((runAppends HZ [sampleReq1, sampleReq2]).get ⟨1, by decide⟩).prevHash =
      some (((runAppends HZ [sampleReq1, sampleReq2]).get ⟨0, by decide⟩).hash) :=
  ⟨(submit_chain_invariant HZ [sampleReq1, sampleReq2]).1 1 (by decide),
   (submit_chain_invariant HZ [sampleReq1, sampleReq2]).2.1 (by decide),
   (submit_chain_invariant HZ [sampleReq1, sampleReq2]).2.2 0 (by decide)⟩

/-! ### Durable-log round trip (C8) -/

/-- Appending any parsed-or-corrupt line to the jsonl file makes it the
record `getLastEntry` reports. -/
theorem getLastEntry_concat (f : Part002.P2File) (x : Option Part002.P2Entry) :
    Part002.getLastEntry (f ++ [x]) = x := by
  unfold Part002.getLastEntry
  rw [List.getLast?_concat]
  cases x <;> rfl

/-- Counterexample to claim C8.  The submit route's in-memory ledger never
reads its mirror file back: `loadLast` seeding exists only in the separate
file-backed implementation.  After two appends the tail is at height 2 and
the next commit would be height 3; after a process restart the store is the
freshly initialised empty array, so the next append is a new genesis
(height 1, `prevHash = null`) instead of continuing the chain — contradicting
the claimed restart round trip. -/
theorem restart_new_genesis_cex :
    (appendEntry HZ (runAppends HZ [sampleReq1, sampleReq2]) sampleReq3).height = 3 ∧
    (appendEntry HZ [] sampleReq3).height = 1 ∧
    (appendEntry HZ [] sampleReq3).prevHash = none := by
  decide

/-- Amended claim C8.  In the file-backed implementation the round trip does
hold at the record level: after an append, `getLastEntry` (the spec's
`loadLast`) returns exactly the stored record — in particular the same
`hash` (these records carry no height field) — so a restarted process
chains onto it instead of a new `'GENESIS'`; and a corrupt trailing line
makes `getLastEntry` report no prior state. -/
theorem p2_roundtrip_loadLast (H : String → String) (file : Part002.P2File)
    (r : Part002.P2Req) :
    Part002.getLastEntry (Part002.p2Post H file r).2 = some (Part002.p2Post H file r).1 ∧
    (Part002.getLastEntry (Part002.p2Post H file r).2).map Part002.P2Entry.hash =
      some (Part002.p2Post H file r).1.hash ∧
    (∀ f : Part002.P2File, Part002.getLastEntry (f ++ [none]) = none) := by
  have h : Part002.getLastEntry (Part002.p2Post H file r).2 =
      some (Part002.p2Post H file r).1 :=
    getLastEntry_concat file (some _)
  refine ⟨h, by rw [h]; rfl, fun f => getLastEntry_concat f none⟩

/-! ### Canonical encoding and key order (C2) -/

/-- Two fields with the same logical content in a different insertion
order. -/
def fieldsA : List (String × Json) := [("a", Json.num 1), ("b", Json.num 2)]

/-- The same mappings as `fieldsA`, inserted in the opposite order. -/
def fieldsB : List (String × Json) := [("b", Json.num 2), ("a", Json.num 1)]

/-- Counterexample to claim C2.  The encoding the submit/verify routes hash is
plain `JSON.stringify`, which emits object fields in insertion order: two
bodies with identical key-value mappings but different construction order
produce different bytes — and hence different content hashes — contradicting
the claimed insertion-order independence of the hash input. -/
theorem stringify_order_dependent_cex :
    List.Perm fieldsA fieldsB ∧
    jsonStringify (Json.obj fieldsA) ≠ jsonStringify (Json.obj fieldsB) ∧
    sha256Hex Hid (jsonStringify (Json.obj fieldsA)) ≠
      sha256Hex Hid (jsonStringify (Json.obj fieldsB)) := by
  refine ⟨?_, by decide, by decide⟩
  show List.Perm [("a", Json.num 1), ("b", Json.num 2)]
    [("b", Json.num 2), ("a", Json.num 1)]
  exact List.Perm.swap _ _ _

/-- The helper `stableFields` is the map pairing each key with its encoded value. -/
theorem stableFields_eq_map (fs : List (String × Json)) :
    stableFields fs = fs.map (fun p => (p.1, stableStringify p.2)) := by
  induction fs with
  | nil => rfl
  | cons p fs ih => cases p with | mk k v => simp [stableFields, ih]

/-- The helper `stableFields` preserves the key sequence. -/
theorem stableFields_keys (fs : List (String × Json)) :
    (stableFields fs).map Prod.fst = fs.map Prod.fst := by
  rw [stableFields_eq_map, List.map_map]
  rfl

/-- Sorting by key sends key-permuted, key-distinct field lists to the same
sorted list. -/
theorem sortFields_perm_eq {l1 l2 : List (String × String)}
    (hp : List.Perm l1 l2) (hnd : (l1.map Prod.fst).Nodup) :
    sortFields l1 = sortFields l2 := by
  have le_trans' : ∀ a b c : String × String,
      (fun a b : String × String => decide (a.1 ≤ b.1)) a b →
      (fun a b : String × String => decide (a.1 ≤ b.1)) b c →
      (fun a b : String × String => decide (a.1 ≤ b.1)) a c := by
    intro a b c hab hbc
    simp only [decide_eq_true_eq] at hab hbc ⊢
    exact le_trans hab hbc
  have le_total' : ∀ a b : String × String,
      ((fun a b : String × String => decide (a.1 ≤ b.1)) a b ||
       (fun a b : String × String => decide (a.1 ≤ b.1)) b a) := by
    intro a b
    simp only [Bool.or_eq_true, decide_eq_true_eq]
    exact le_total a.1 b.1
  have p1 : List.Perm (sortFields l1) l1 := List.mergeSort_perm l1 _
  have p2 : List.Perm (sortFields l2) l2 := List.mergeSort_perm l2 _
  have hp' : List.Perm (sortFields l1) (sortFields l2) := p1.trans (hp.trans p2.symm)
  have s1 := List.sorted_mergeSort le_trans' le_total' l1
  have s2 := List.sorted_mergeSort le_trans' le_total' l2
  have nd1 : ((sortFields l1).map Prod.fst).Nodup := ((p1.map Prod.fst).nodup_iff).mpr hnd
  have nd2 : ((sortFields l2).map Prod.fst).Nodup :=
    ((p2.map Prod.fst).nodup_iff).mpr (((hp.map Prod.fst).nodup_iff).mp hnd)
  have st1 : (sortFields l1).Pairwise (fun a b => a.1 < b.1) := by
    have hne := (List.pairwise_map).mp nd1
    exact (s1.and hne).imp (fun h => lt_of_le_of_ne (by simpa using h.1) h.2)
  have st2 : (sortFields l2).Pairwise (fun a b => a.1 < b.1) := by
    have hne := (List.pairwise_map).mp nd2
    exact (s2.and hne).imp (fun h => lt_of_le_of_ne (by simpa using h.1) h.2)
  haveI : IsAntisymm (String × String) (fun a b => a.1 < b.1) :=
    ⟨fun a b h1 h2 => absurd h1 (lt_asymm h2)⟩
  exact List.eq_of_perm_of_sorted hp' st1 st2

/-- Amended claim C2.  The insertion-order independence the claim describes
holds for the file-backed implementation's `stableStringify` (the spec's
canonical encoder): permuting an object's (distinct-keyed) fields leaves
the encoded bytes — and hence any digest of them — unchanged.  The
submit/verify routes instead hash plain `JSON.stringify`, whose bytes
coincide only when the field order does (see the counterexample). -/
theorem stableStringify_key_order_independent (fs1 fs2 : List (String × Json))
    (hperm : List.Perm fs1 fs2) (hnd : (fs1.map Prod.fst).Nodup) :
    stableStringify (Json.obj fs1) = stableStringify (Json.obj fs2) ∧
    ∀ H : String → String,
      Part002.sha256Hex H (stableStringify (Json.obj fs1)) =
        Part002.sha256Hex H (stableStringify (Json.obj fs2)) := by
  have hpf : List.Perm (stableFields fs1) (stableFields fs2) := by
    rw [stableFields_eq_map, stableFields_eq_map]
    exact hperm.map _
  have hndf : ((stableFields fs1).map Prod.fst).Nodup := by
    rw [stableFields_keys]
    exact hnd
  have hsort : sortFields (stableFields fs1) = sortFields (stableFields fs2) :=
    sortFields_perm_eq hpf hndf
  have hb : stableStringify (Json.obj fs1) = stableStringify (Json.obj fs2) := by
    simp only [stableStringify]
    rw [hsort]
  exact ⟨hb, fun H => by rw [Part002.sha256Hex, Part002.sha256Hex, hb]⟩

/-- Witness for the amended C2: the two-field object encodes identically
under `stableStringify` whichever way round its fields were inserted. -/
theorem stableStringify_key_order_independent_witness :
    List.Perm fieldsA fieldsB ∧ (fieldsA.map Prod.fst).Nodup ∧
    (stableStringify (Json.obj fieldsA) = stableStringify (Json.obj fieldsB) ∧
     ∀ H : String → String,
       Part002.sha256Hex H (stableStringify (Json.obj fieldsA)) =
         Part002.sha256Hex H (stableStringify (Json.obj fieldsB))) :=
  ⟨List.Perm.swap _ _ _, by decide,
   stableStringify_key_order_independent fieldsA fieldsB (List.Perm.swap _ _ _) (by decide)⟩

end TrustLedger
